import Mathlib

/-!
Verification of the lap-timing / leaderboard core of the F1 dashboard
(`src/run.py`).  Durations are modelled in whole milliseconds (`Nat`),
matching the millisecond precision of the timing data; a missing duration
(pandas `NaT`) is `Option.none`.  Dataframe rows become explicit records and
the pandas groupby / sort / merge pipeline of the leaderboard tab becomes
explicit list transformations.
-/

/-- One row of the session lap table (`session.laps`).  Fields are the columns
used by the dashboard: driver abbreviation, lap number, lap duration in
milliseconds (`none` = NaT, an aborted/incomplete lap), tyre compound and the
pit in/out markers. -/
structure LapRecord where
  driver : String
  lapNumber : Int
  lapTime : Option Nat
  compound : String
  pitIn : Bool
  pitOut : Bool
deriving Repr, DecidableEq

/-- Zero-pad a number below 100 to two digits (the integer part of the
seconds field (format 06.3f), which is always below 60 here). -/
def pad2 (n : Nat) : String :=
  if n < 10 then "0" ++ toString n else toString n

/-- Zero-pad a number below 1000 to three digits (the fractional milliseconds
of a `.3f` field). -/
def pad3 (n : Nat) : String :=
  if n < 10 then "00" ++ toString n
  else if n < 100 then "0" ++ toString n
  else toString n

/-- `format_time` from `src/run.py` lines 40-46: `NaT` renders as the empty
string; otherwise the duration is split into whole minutes
(`total_seconds // 60`) and remaining seconds (`total_seconds % 60`) and
rendered as the minute count, a colon, and the seconds zero-padded to
width 6 with 3 decimals (format 06.3f).  At millisecond precision the
`%06.3f` field is the two-digit zero-padded whole seconds, a dot, and the
three-digit zero-padded milliseconds. -/
def format_time : Option Nat → String
  | none => ""
  | some ms =>
    let s := ms % 60000
    toString (ms / 60000) ++ ":" ++ pad2 (s / 1000) ++ "." ++ pad3 (s % 1000)

/-- Modelled from the spec: the quick-lap classification is performed by the
external fastf1 library (`Laps.pick_quicklaps`, called at `src/run.py` lines
125 and 166) and is not part of this repository.  Following spec sections 4.2
and 9 it is treated as a pluggable per-lap predicate `p`; the filter keeps the
laps that are not pit-in or pit-out laps, have a non-null duration, and
satisfy `p`, preserving input order. -/
def filter_quick_laps (p : LapRecord → Bool) (laps : List LapRecord) : List LapRecord :=
  laps.filter (fun l => !l.pitIn && !l.pitOut && l.lapTime.isSome && p l)

/-- First-occurrence deduplication of a list of driver identifiers (the set of
group keys formed by `groupby("Driver")`). -/
def dedupFirst : List String → List String
  | [] => []
  | d :: ds => d :: (dedupFirst ds).filter (fun x => x ≠ d)

/-- Code-point comparison of two character lists, the ordering pandas uses for
string group keys. -/
def charListLe : List Char → List Char → Bool
  | [], _ => true
  | _ :: _, [] => false
  | a :: as, b :: bs =>
    if a.toNat < b.toNat then true
    else if b.toNat < a.toNat then false
    else charListLe as bs

/-- Lexicographic (code-point) order on driver identifiers. -/
def strLe (a b : String) : Bool :=
  charListLe a.data b.data

/-- Propositional form of `strLe`, used as the sorting relation. -/
def strLeProp (a b : String) : Prop := strLe a b = true

instance : DecidableRel strLeProp :=
  fun a b => inferInstanceAs (Decidable (strLe a b = true))

/-- The group keys of `groupby("Driver")`: the distinct drivers of the table,
in ascending order (pandas sorts group keys). -/
def sortedDrivers (laps : List LapRecord) : List String :=
  List.insertionSort strLeProp (dedupFirst (laps.map LapRecord.driver))

/-- The non-null lap durations recorded for driver `d` in the table. -/
def lapTimesOf (laps : List LapRecord) (d : String) : List Nat :=
  laps.filterMap (fun l => if l.driver = d then l.lapTime else none)

/-- Minimum of a list of durations (`none` on the empty list); the `min`
aggregation of the groupby. -/
def minTime : List Nat → Option Nat
  | [] => none
  | t :: ts =>
    match minTime ts with
    | none => some t
    | some m => if t ≤ m then some t else some m

/-- The groupby-min frame of `src/run.py` line 166: one `(driver, best
duration)` pair per driver of the table, keyed in ascending driver order. -/
def bestLaps (quick : List LapRecord) : List (String × Nat) :=
  (sortedDrivers quick).filterMap
    (fun d => (minTime (lapTimesOf quick d)).map (fun t => (d, t)))

/-- Sorting relation of `sort_values("LapTime")`: compare pairs by duration. -/
def timeLe (a b : String × Nat) : Prop := a.2 ≤ b.2

instance : DecidableRel timeLe := fun a b => Nat.decLe a.2 b.2

instance : IsTotal (String × Nat) timeLe := ⟨fun a b => Nat.le_total a.2 b.2⟩

instance : IsTrans (String × Nat) timeLe := ⟨fun _ _ _ => Nat.le_trans⟩

/-- The groupby-min frame sorted ascending by best duration (`src/run.py`
line 170).  pandas `sort_values` defaults to an unstable quicksort, so the
program does not fix the relative order of rows with equal durations; the
model uses a stable insertion sort as one concrete refinement of that
unspecified tie order, and no universal theorem below depends on the model's
tie order — tie-order facts are stated only on concrete small inputs, where
numpy's small-array insertion sort coincides with the model. -/
def sortedBest (quick : List LapRecord) : List (String × Nat) :=
  List.insertionSort timeLe (bestLaps quick)

/-- One row of the formatted leaderboard frame `fastest_laps` (`src/run.py`
lines 170-182): position, driver, raw best duration (the retained `LapTime`
column), formatted time string, and formatted gap string. -/
structure Entry where
  pos : Nat
  driver : String
  lapTime : Nat
  time : String
  gap : String
deriving Repr, DecidableEq

/-- The gap column format of `src/run.py` line 179:
a plus sign, the gap in seconds to three decimals (format .3f), and a
trailing letter s, for a gap of `g` milliseconds. -/
def gapString (g : Nat) : String :=
  "+" ++ toString (g / 1000) ++ "." ++ pad3 (g % 1000) ++ "s"

/-- Rows of the leaderboard frame built from the sorted `(driver, best)`
pairs: position counts up from `i`, the gap is measured against the pole
duration, rendered as `"-"` unless strictly positive (`src/run.py` lines
172-182). -/
def mkEntries (pole : Nat) : Nat → List (String × Nat) → List Entry
  | _, [] => []
  | i, (d, t) :: rest =>
    ⟨i, d, t, format_time (some t),
      if 0 < t - pole then gapString (t - pole) else "-"⟩ :: mkEntries pole (i + 1) rest

/-- The pole (reference) duration: the first row of the sorted frame
(`fastest_laps.iloc[0]["LapTime"]`, `src/run.py` line 173). -/
def poleOf : List (String × Nat) → Nat
  | [] => 0
  | (_, t) :: _ => t

/-- Leaderboard rows from a sorted best-lap list. -/
def boardOfSorted (sb : List (String × Nat)) : List Entry :=
  mkEntries (poleOf sb) 1 sb

/-- The leaderboard pipeline of `src/run.py` lines 164-182: filter quick laps,
group by driver taking the minimum duration, sort ascending by duration,
attach gap strings and 1-based positions.  An empty result (no quick laps)
yields the empty board, the "no data" branch of line 207. -/
def build_leaderboard (p : LapRecord → Bool) (laps : List LapRecord) : List Entry :=
  boardOfSorted (sortedBest (filter_quick_laps p laps))

/-- One row of the merged frame `fastest_laps_detailed` (`src/run.py` lines
186-194); `compound` is `none` when the left join found no matching lap row. -/
structure GridRow where
  pos : Nat
  driver : String
  lapTime : Nat
  time : String
  gap : String
  compound : Option String
deriving Repr, DecidableEq

/-- The lap rows of the original table matching a leaderboard entry on the
join keys `(Driver, LapTime)`. -/
def matchingLaps (laps : List LapRecord) (e : Entry) : List LapRecord :=
  laps.filter (fun l => l.driver == e.driver && l.lapTime == some e.lapTime)

/-- The merged rows one leaderboard entry contributes under
`pd.merge(..., on=["Driver", "LapTime"], how="left")`: one row per matching
lap row of the original table (in table order, carrying that lap's compound),
or a single row with a null compound when no lap matches. -/
def rowsFor (laps : List LapRecord) (e : Entry) : List GridRow :=
  match matchingLaps laps e with
  | [] => [⟨e.pos, e.driver, e.lapTime, e.time, e.gap, none⟩]
  | ms => ms.map (fun l => ⟨e.pos, e.driver, e.lapTime, e.time, e.gap, some l.compound⟩)

/-- The left join of `src/run.py` lines 186-191: left rows in order, each
expanded to its matching right rows. -/
def merge_compound (laps : List LapRecord) (entries : List Entry) : List GridRow :=
  entries.flatMap (rowsFor laps)

/-- The displayed grid `fastest_laps_detailed` of `src/run.py` lines 186-194
(before the presentational column selection, which keeps `Pos`, `Driver`,
`Time`, `Gap`, `Compound`). -/
def final_grid (p : LapRecord → Bool) (laps : List LapRecord) : List GridRow :=
  merge_compound laps (build_leaderboard p laps)

/-- The laps of driver `d` that have a recorded duration, paired with that
duration. -/
def timedLaps (laps : List LapRecord) (d : String) : List (LapRecord × Nat) :=
  laps.filterMap (fun l => if l.driver = d then (l.lapTime).map (fun t => (l, t)) else none)

/-- Minimum-duration element of a list of (lap, duration) pairs, keeping the
first on ties. -/
def minByTime : List (LapRecord × Nat) → Option (LapRecord × Nat)
  | [] => none
  | x :: xs =>
    match minByTime xs with
    | none => some x
    | some y => if x.2 ≤ y.2 then some x else some y

/-- Modelled from the spec: `laps.pick_driver(d).pick_fastest()` (`src/run.py`
lines 88-89) is implemented by the external fastf1 library, not in this
repository.  Following spec section 4.4 it selects, among the given driver's
laps with a non-null duration, the one of minimum duration, with no quick-lap
filtering; it is `none` when the driver has no timed lap. -/
def fastest_lap (laps : List LapRecord) (d : String) : Option LapRecord :=
  (minByTime (timedLaps laps d)).map Prod.fst

/-- The telemetry-tab comparison of `src/run.py` lines 91-106: guarded by the
`None` check on both fastest laps, the signed delta is
`duration(lap_b) - duration(lap_a)` (in milliseconds here); when either lap is
missing no delta is produced. -/
def compare_laps : Option LapRecord → Option LapRecord → Option Int
  | some la, some lb =>
    match la.lapTime, lb.lapTime with
    | some ta, some tb => some ((tb : Int) - (ta : Int))
    | _, _ => none
  | _, _ => none


/-! ## Supporting lemmas -/

theorem filter_quick_laps_idem (p : LapRecord → Bool) (laps : List LapRecord) :
    filter_quick_laps p (filter_quick_laps p laps) = filter_quick_laps p laps := by
  unfold filter_quick_laps
  rw [List.filter_filter]
  exact List.filter_congr (fun a _ => Bool.and_self _)

/-! ## Claim theorems -/

/-- C4: `format_time` returns the empty string for a missing duration, and for
every non-negative duration returns the minute count, a colon, and the
zero-padded seconds (format 06.3f), where
minutes is the floor of total seconds divided by 60 and seconds is total
seconds modulo 60 (rendered as the zero-padded `SS.mmm` field); in particular
`format_time` of 83.456 s is `"1:23.456"` and of 0 s is `"0:00.000"`. -/
theorem C4_format_time_spec :
    format_time none = "" ∧
    (∀ ms : Nat, format_time (some ms) =
      toString (ms / 60000) ++ ":" ++
        pad2 (ms % 60000 / 1000) ++ "." ++ pad3 (ms % 60000 % 1000)) ∧
    format_time (some 83456) = "1:23.456" ∧
    format_time (some 0) = "0:00.000" :=
  ⟨rfl, fun _ => rfl, by decide, by decide⟩

/-- C10: for durations of 60 minutes or more, `format_time` renders the full
minute count with no hours roll-over: the minute field is the unbounded
`total // 60`, which is at least 60 there; in particular 3683.456 s renders as
`"61:23.456"`. -/
theorem C10_format_time_no_hours (ms : Nat) (h : 3600000 ≤ ms) :
    60 ≤ ms / 60000 ∧
    format_time (some ms) =
      toString (ms / 60000) ++ ":" ++
        pad2 (ms % 60000 / 1000) ++ "." ++ pad3 (ms % 60000 % 1000) ∧
    format_time (some 3683456) = "61:23.456" :=
  ⟨Nat.le_div_iff_mul_le (by decide) |>.mpr (by omega), rfl, by decide⟩

theorem C10_witness :
    60 ≤ 3683456 / 60000 ∧
    format_time (some 3683456) =
      toString (3683456 / 60000) ++ ":" ++
        pad2 (3683456 % 60000 / 1000) ++ "." ++ pad3 (3683456 % 60000 % 1000) ∧
    format_time (some 3683456) = "61:23.456" :=
  C10_format_time_no_hours 3683456 (by decide)

/-- C5: the telemetry comparison is produced only when both fastest laps are
present; it is then the signed delta `duration(lap_b) - duration(lap_a)`, and
a positive delta holds exactly when driver A's lap is the faster one.  When
either lap is `none` the result is `none` rather than a number. -/
theorem C5_compare_delta (la lb : LapRecord) (ta tb : Nat)
    (ha : la.lapTime = some ta) (hb : lb.lapTime = some tb) :
    (∀ o : Option LapRecord, compare_laps none o = none) ∧
    (∀ o : Option LapRecord, compare_laps o none = none) ∧
    compare_laps (some la) (some lb) = some ((tb : Int) - (ta : Int)) ∧
    (0 < (tb : Int) - (ta : Int) ↔ ta < tb) := by
  refine ⟨fun o => by cases o <;> rfl, fun o => by cases o <;> rfl, ?_, by omega⟩
  simp [compare_laps, ha, hb]

theorem C5_witness :
    compare_laps (some ⟨"VER", 1, some 90000, "SOFT", false, false⟩)
        (some ⟨"HAM", 1, some 91500, "MEDIUM", false, false⟩) =
      some ((91500 : Int) - (90000 : Int)) ∧
    (0 < (91500 : Int) - (90000 : Int) ↔ 90000 < 91500) :=
  (C5_compare_delta _ _ 90000 91500 rfl rfl).2.2

/-- C6: the leaderboard of an empty lap table is empty, and whenever quick-lap
filtering removes every row the leaderboard is empty as well; the builder is a
total function, so it never raises, and the caller's `else` branch renders the
no-data state. -/
theorem C6_empty_board (p : LapRecord → Bool) (laps : List LapRecord) :
    build_leaderboard p [] = [] ∧
    (filter_quick_laps p laps = [] → build_leaderboard p laps = []) :=
  ⟨rfl, fun h => by unfold build_leaderboard; rw [h]; rfl⟩

theorem C6_witness :
    filter_quick_laps (fun _ => true) [⟨"A", 1, some 90000, "SOFT", true, false⟩] = [] ∧
    build_leaderboard (fun _ => true) [⟨"A", 1, some 90000, "SOFT", true, false⟩] = [] :=
  ⟨by decide,
    (C6_empty_board (fun _ => true) [⟨"A", 1, some 90000, "SOFT", true, false⟩]).2 (by decide)⟩

/-- C7: building the leaderboard from an already quick-filtered table gives
the same board as building it from the raw table, because the builder applies
the same filter first and the filter is idempotent. -/
theorem C7_filter_idempotent (p : LapRecord → Bool) (laps : List LapRecord) :
    build_leaderboard p (filter_quick_laps p laps) = build_leaderboard p laps := by
  unfold build_leaderboard
  rw [filter_quick_laps_idem]

theorem mem_dedupFirst (l : List String) (x : String) : x ∈ dedupFirst l ↔ x ∈ l := by
  induction l with
  | nil => rfl
  | cons d ds ih =>
    simp only [dedupFirst, List.mem_cons, List.mem_filter, ih]
    by_cases hx : x = d
    · simp [hx]
    · simp [hx]

theorem nodup_dedupFirst (l : List String) : (dedupFirst l).Nodup := by
  induction l with
  | nil => exact List.nodup_nil
  | cons d ds ih =>
    refine List.nodup_cons.mpr ⟨?_, ih.filter _⟩
    intro hd
    have := (List.mem_filter.mp hd).2
    simp at this

theorem mem_sortedDrivers (laps : List LapRecord) (x : String) :
    x ∈ sortedDrivers laps ↔ ∃ l ∈ laps, l.driver = x := by
  unfold sortedDrivers
  rw [List.mem_insertionSort, mem_dedupFirst, List.mem_map]

theorem nodup_sortedDrivers (laps : List LapRecord) : (sortedDrivers laps).Nodup :=
  ((List.perm_insertionSort strLeProp _).symm).nodup (nodup_dedupFirst _)

theorem minTime_eq_none (l : List Nat) : minTime l = none ↔ l = [] := by
  cases l with
  | nil => simp [minTime]
  | cons t ts =>
    simp only [minTime]
    cases minTime ts with
    | none => simp
    | some m => by_cases h : t ≤ m <;> simp [h]

theorem minTime_spec (l : List Nat) (m : Nat) (h : minTime l = some m) :
    m ∈ l ∧ ∀ t ∈ l, m ≤ t := by
  induction l generalizing m with
  | nil => simp [minTime] at h
  | cons t ts ih =>
    cases hts : minTime ts with
    | none =>
      simp only [minTime, hts] at h
      obtain rfl : t = m := by simpa using h
      have hnil : ts = [] := (minTime_eq_none ts).mp hts
      subst hnil
      exact ⟨List.mem_singleton_self _, by simp⟩
    | some k =>
      simp only [minTime, hts] at h
      obtain ⟨hk, hkle⟩ := ih k hts
      by_cases hle : t ≤ k
      · rw [if_pos hle] at h
        obtain rfl : t = m := by simpa using h
        refine ⟨List.mem_cons_self _ _, ?_⟩
        intro u hu
        rcases List.mem_cons.mp hu with rfl | hu
        · exact Nat.le_refl _
        · exact Nat.le_trans hle (hkle u hu)
      · rw [if_neg hle] at h
        obtain rfl : k = m := by simpa using h
        refine ⟨List.mem_cons_of_mem _ hk, ?_⟩
        intro u hu
        rcases List.mem_cons.mp hu with rfl | hu
        · omega
        · exact hkle u hu

theorem mem_bestLaps (quick : List LapRecord) (d : String) (t : Nat) :
    (d, t) ∈ bestLaps quick ↔
      d ∈ sortedDrivers quick ∧ minTime (lapTimesOf quick d) = some t := by
  unfold bestLaps
  rw [List.mem_filterMap]
  constructor
  · rintro ⟨a, ha, hfa⟩
    rcases Option.map_eq_some'.mp hfa with ⟨t', ht', heq⟩
    simp only [Prod.mk.injEq] at heq
    obtain ⟨rfl, rfl⟩ := heq
    exact ⟨ha, ht'⟩
  · rintro ⟨hd, hm⟩
    exact ⟨d, hd, by rw [hm]; rfl⟩

theorem mkEntries_map_pos (pole : Nat) (i : Nat) (l : List (String × Nat)) :
    (mkEntries pole i l).map Entry.pos = List.range' i l.length := by
  induction l generalizing i with
  | nil => rfl
  | cons x rest ih =>
    obtain ⟨d, t⟩ := x
    simp [mkEntries, List.range'_succ, ih]

theorem mkEntries_map_pair (pole : Nat) (i : Nat) (l : List (String × Nat)) :
    (mkEntries pole i l).map (fun e => (e.driver, e.lapTime)) = l := by
  induction l generalizing i with
  | nil => rfl
  | cons x rest ih =>
    obtain ⟨d, t⟩ := x
    simp [mkEntries, ih]

theorem mkEntries_length (pole : Nat) (i : Nat) (l : List (String × Nat)) :
    (mkEntries pole i l).length = l.length := by
  have := congrArg List.length (mkEntries_map_pair pole i l)
  simpa using this

theorem mem_mkEntries (pole : Nat) (i : Nat) (l : List (String × Nat)) (e : Entry)
    (he : e ∈ mkEntries pole i l) :
    (e.driver, e.lapTime) ∈ l ∧
    e.time = format_time (some e.lapTime) ∧
    e.gap = if 0 < e.lapTime - pole then gapString (e.lapTime - pole) else "-" := by
  induction l generalizing i with
  | nil => cases he
  | cons x rest ih =>
    obtain ⟨d, t⟩ := x
    rcases List.mem_cons.mp he with rfl | hmem
    · exact ⟨List.mem_cons_self _ _, rfl, rfl⟩
    · obtain ⟨h1, h2, h3⟩ := ih (i + 1) hmem
      exact ⟨List.mem_cons_of_mem _ h1, h2, h3⟩

theorem sorted_sortedBest (quick : List LapRecord) :
    List.Sorted timeLe (sortedBest quick) :=
  List.sorted_insertionSort timeLe _

theorem board_map_pair (p : LapRecord → Bool) (laps : List LapRecord) :
    (build_leaderboard p laps).map (fun e => (e.driver, e.lapTime)) =
      sortedBest (filter_quick_laps p laps) :=
  mkEntries_map_pair _ _ _

theorem board_pairwise_time (p : LapRecord → Bool) (laps : List LapRecord) :
    List.Pairwise (fun a b : Entry => a.lapTime ≤ b.lapTime) (build_leaderboard p laps) := by
  have hs : List.Pairwise timeLe
      ((build_leaderboard p laps).map (fun e => (e.driver, e.lapTime))) := by
    rw [board_map_pair]
    exact sorted_sortedBest _
  rw [List.pairwise_map] at hs
  exact hs

theorem mem_board (p : LapRecord → Bool) (laps : List LapRecord) (e : Entry)
    (he : e ∈ build_leaderboard p laps) :
    (e.driver, e.lapTime) ∈ sortedBest (filter_quick_laps p laps) ∧
    e.time = format_time (some e.lapTime) ∧
    e.gap = if 0 < e.lapTime - poleOf (sortedBest (filter_quick_laps p laps))
      then gapString (e.lapTime - poleOf (sortedBest (filter_quick_laps p laps))) else "-" :=
  mem_mkEntries _ _ _ e he

theorem quick_lapTime_isSome (p : LapRecord → Bool) (laps : List LapRecord)
    (l : LapRecord) (hl : l ∈ filter_quick_laps p laps) : l.lapTime.isSome := by
  have := (List.mem_filter.mp hl).2
  simp only [Bool.and_eq_true] at this
  exact this.1.2

theorem sortedBest_ne_nil (p : LapRecord → Bool) (laps : List LapRecord)
    (h : filter_quick_laps p laps ≠ []) :
    sortedBest (filter_quick_laps p laps) ≠ [] := by
  set quick := filter_quick_laps p laps with hq
  obtain ⟨l, hl⟩ := List.exists_mem_of_ne_nil quick h
  have hd : l.driver ∈ sortedDrivers quick := by
    rw [mem_sortedDrivers]
    exact ⟨l, hl, rfl⟩
  obtain ⟨t, ht⟩ := Option.isSome_iff_exists.mp (quick_lapTime_isSome p laps l (hq ▸ hl))
  have htl : t ∈ lapTimesOf quick l.driver := by
    rw [lapTimesOf, List.mem_filterMap]
    exact ⟨l, hl, by simp [ht]⟩
  have hne : lapTimesOf quick l.driver ≠ [] := List.ne_nil_of_mem htl
  obtain ⟨m, hm⟩ : ∃ m, minTime (lapTimesOf quick l.driver) = some m := by
    cases hmt : minTime (lapTimesOf quick l.driver) with
    | none => exact absurd ((minTime_eq_none _).mp hmt) hne
    | some m => exact ⟨m, rfl⟩
  have hmem : (l.driver, m) ∈ bestLaps quick := (mem_bestLaps quick l.driver m).mpr ⟨hd, hm⟩
  have : (l.driver, m) ∈ sortedBest quick := by
    rw [sortedBest, List.mem_insertionSort]
    exact hmem
  exact List.ne_nil_of_mem this

/-- C1: for every non-empty quick-lap set the leaderboard is non-empty, its
positions are exactly the dense ranks `1..N`, it is sorted ascending by best
duration, the pole duration (the head's) is the minimum, the leader's gap
renders as `"-"`, every entry's gap string is determined by its duration minus
the pole duration, and every strictly positive gap renders as
a plus sign, the gap in seconds to three decimals, and a trailing s. -/
theorem C1_leaderboard_ranked (p : LapRecord → Bool) (laps : List LapRecord)
    (h : filter_quick_laps p laps ≠ []) :
    build_leaderboard p laps ≠ [] ∧
    (build_leaderboard p laps).map Entry.pos =
      List.range' 1 (build_leaderboard p laps).length ∧
    List.Pairwise (fun a b : Entry => a.lapTime ≤ b.lapTime) (build_leaderboard p laps) ∧
    ∃ pole : Nat,
      (build_leaderboard p laps).head?.map Entry.lapTime = some pole ∧
      (∀ e ∈ build_leaderboard p laps, pole ≤ e.lapTime) ∧
      (build_leaderboard p laps).head?.map Entry.gap = some "-" ∧
      (∀ e ∈ build_leaderboard p laps,
        e.gap = if 0 < e.lapTime - pole then gapString (e.lapTime - pole) else "-") ∧
      (∀ e ∈ build_leaderboard p laps,
        pole < e.lapTime → e.gap = gapString (e.lapTime - pole)) := by
  have hsb := sortedBest_ne_nil p laps h
  set sb := sortedBest (filter_quick_laps p laps) with hsbdef
  obtain ⟨x, rest, hx⟩ := List.exists_cons_of_ne_nil hsb
  obtain ⟨d0, t0⟩ := x
  have hboard : build_leaderboard p laps = mkEntries t0 1 ((d0, t0) :: rest) := by
    rw [build_leaderboard, boardOfSorted, ← hsbdef, hx, poleOf]
  have hpole : poleOf sb = t0 := by rw [hx]; rfl
  have hmin : ∀ pr ∈ sb, t0 ≤ pr.2 := by
    intro pr hpr
    have hsort : List.Sorted timeLe sb := sorted_sortedBest _
    rw [hx] at hsort hpr
    rcases List.mem_cons.mp hpr with rfl | hpr
    · exact Nat.le_refl _
    · exact List.rel_of_pairwise_cons hsort hpr
  constructor
  · rw [hboard]; simp [mkEntries]
  have hpos : (build_leaderboard p laps).map Entry.pos =
      List.range' 1 (build_leaderboard p laps).length := by
    rw [hboard, mkEntries_map_pos, mkEntries_length]
  refine ⟨hpos, board_pairwise_time p laps, t0, ?_, ?_, ?_, ?_, ?_⟩
  · rw [hboard]; simp [mkEntries]
  · intro e he
    have hmem := (mem_board p laps e he).1
    exact hmin _ hmem
  · rw [hboard]; simp [mkEntries]
  · intro e he
    have := (mem_board p laps e he).2.2
    rwa [← hsbdef, hpole] at this
  · intro e he hlt
    have hg := (mem_board p laps e he).2.2
    rw [← hsbdef, hpole] at hg
    rw [hg, if_pos (by omega)]

theorem C1_witness :
    build_leaderboard (fun _ => true)
      [⟨"A", 1, some 92100, "SOFT", false, false⟩,
       ⟨"A", 2, some 91500, "SOFT", false, false⟩,
       ⟨"B", 1, some 93000, "MEDIUM", false, false⟩] ≠ [] ∧
    (build_leaderboard (fun _ => true)
      [⟨"A", 1, some 92100, "SOFT", false, false⟩,
       ⟨"A", 2, some 91500, "SOFT", false, false⟩,
       ⟨"B", 1, some 93000, "MEDIUM", false, false⟩]).map Entry.pos =
      List.range' 1 (build_leaderboard (fun _ => true)
        [⟨"A", 1, some 92100, "SOFT", false, false⟩,
         ⟨"A", 2, some 91500, "SOFT", false, false⟩,
         ⟨"B", 1, some 93000, "MEDIUM", false, false⟩]).length :=
  ⟨(C1_leaderboard_ranked _ _ (by decide)).1, (C1_leaderboard_ranked _ _ (by decide)).2.1⟩

/-- C3 counterexample: two drivers tied at 90.000 s with `"Z"` appearing first
in the input.  The claim puts the first-seen driver (`"Z"`) at position 1, but
the groupby sorts the drivers alphabetically before the time sort, so the
leaderboard ranks `"A"` first. -/
theorem C3_counterexample :
    ([⟨"Z", 1, some 90000, "SOFT", false, false⟩,
      ⟨"A", 1, some 90000, "SOFT", false, false⟩] :
        List LapRecord).head?.map LapRecord.driver = some "Z" ∧
    (build_leaderboard (fun _ => true)
      [⟨"Z", 1, some 90000, "SOFT", false, false⟩,
       ⟨"A", 1, some 90000, "SOFT", false, false⟩]).map (fun e => (e.pos, e.driver)) =
      [(1, "A"), (2, "Z")] ∧
    ("A" : String) ≠ "Z" := by
  refine ⟨rfl, by decide, by decide⟩

/-- C3 amended: when two or more drivers share the identical best lap
duration, the tie is not broken by stable input order: the groupby keys the
frame alphabetically and `sort_values` (an order-unspecified, unstable sort)
gives no input-order guarantee, so the first-seen driver does not in general
rank ahead — in the two-driver scenario tied at 90.000 s with `"Z"` first in
the input, `"A"` is ranked position 1.  Independently of any tie order the
entries are sorted ascending by best duration and every entry's gap (its
duration minus the pole duration) is ≥ 0. -/
theorem C3_tie_not_input_order (p : LapRecord → Bool) (laps : List LapRecord) :
    List.Pairwise (fun a b : Entry => a.lapTime ≤ b.lapTime) (build_leaderboard p laps) ∧
    (∀ e0 ∈ (build_leaderboard p laps).head?,
      ∀ e ∈ build_leaderboard p laps,
        (0 : Int) ≤ (e.lapTime : Int) - (e0.lapTime : Int)) ∧
    (build_leaderboard (fun _ => true)
      [⟨"Z", 1, some 90000, "SOFT", false, false⟩,
       ⟨"A", 1, some 90000, "SOFT", false, false⟩]).map (fun e => (e.pos, e.driver)) =
      [(1, "A"), (2, "Z")] := by
  refine ⟨board_pairwise_time p laps, ?_, by decide⟩
  intro e0 he0 e he
  have hp := board_pairwise_time p laps
  have hne : build_leaderboard p laps ≠ [] := by
    intro hnil
    rw [hnil] at he0
    simp at he0
  obtain ⟨e0', tl, hcons⟩ := List.exists_cons_of_ne_nil hne
  rw [hcons] at he0 hp he
  obtain rfl : e0' = e0 := by simpa using he0
  rcases List.mem_cons.mp he with rfl | he
  · omega
  · have := List.rel_of_pairwise_cons hp he
    omega

theorem C3_witness :
    (0 : Int) ≤
      (((⟨2, "Z", 90000, "1:30.000", "-"⟩ : Entry).lapTime : Int) -
        ((⟨1, "A", 90000, "1:30.000", "-"⟩ : Entry).lapTime : Int)) :=
  (C3_tie_not_input_order (fun _ => true)
      [⟨"Z", 1, some 90000, "SOFT", false, false⟩,
       ⟨"A", 1, some 90000, "SOFT", false, false⟩]).2.1
    ⟨1, "A", 90000, "1:30.000", "-"⟩ (by decide)
    ⟨2, "Z", 90000, "1:30.000", "-"⟩ (by decide)

theorem bestLaps_fst_sublist (quick : List LapRecord) :
    ((bestLaps quick).map Prod.fst).Sublist (sortedDrivers quick) := by
  unfold bestLaps
  generalize sortedDrivers quick = ds
  induction ds with
  | nil => simp
  | cons d ds ih =>
    rw [List.filterMap_cons]
    cases hfd : (minTime (lapTimesOf quick d)).map (fun t => (d, t)) with
    | none => exact ih.cons d
    | some x =>
      obtain ⟨t, -, hx⟩ := Option.map_eq_some'.mp hfd
      cases hx
      exact ih.cons₂ d

theorem board_drivers_nodup (p : LapRecord → Bool) (laps : List LapRecord) :
    ((build_leaderboard p laps).map Entry.driver).Nodup := by
  have h1 : (build_leaderboard p laps).map Entry.driver =
      ((build_leaderboard p laps).map (fun e => (e.driver, e.lapTime))).map Prod.fst := by
    rw [List.map_map]; rfl
  rw [h1, board_map_pair]
  have hperm : ((bestLaps (filter_quick_laps p laps)).map Prod.fst).Perm
      ((sortedBest (filter_quick_laps p laps)).map Prod.fst) :=
    ((List.perm_insertionSort timeLe _).symm).map Prod.fst
  exact hperm.nodup
    ((bestLaps_fst_sublist _).nodup (nodup_sortedDrivers _))

theorem rowsFor_driver (laps : List LapRecord) (e : Entry) (r : GridRow)
    (hr : r ∈ rowsFor laps e) : r.driver = e.driver := by
  unfold rowsFor at hr
  cases hm : matchingLaps laps e with
  | nil => rw [hm] at hr; simp at hr; rw [hr]
  | cons x xs =>
    rw [hm] at hr
    obtain ⟨l, -, hl⟩ := List.mem_map.mp hr
    rw [← hl]

theorem rowsFor_pos (laps : List LapRecord) (e : Entry) (r : GridRow)
    (hr : r ∈ rowsFor laps e) : r.pos = e.pos := by
  unfold rowsFor at hr
  cases hm : matchingLaps laps e with
  | nil => rw [hm] at hr; simp at hr; rw [hr]
  | cons x xs =>
    rw [hm] at hr
    obtain ⟨l, -, hl⟩ := List.mem_map.mp hr
    rw [← hl]

theorem filter_rowsFor_self (laps : List LapRecord) (e : Entry) :
    (rowsFor laps e).filter (fun r => r.driver == e.driver) = rowsFor laps e :=
  List.filter_eq_self.mpr (fun r hr => by
    rw [rowsFor_driver laps e r hr]; exact beq_self_eq_true _)

theorem filter_rowsFor_ne (laps : List LapRecord) (e : Entry) (d : String)
    (h : e.driver ≠ d) :
    (rowsFor laps e).filter (fun r => r.driver == d) = [] := by
  rw [List.filter_eq_nil_iff]
  intro r hr
  rw [rowsFor_driver laps e r hr]
  simp [h]

theorem flatMap_filter_unique (laps : List LapRecord) (entries : List Entry) (e : Entry)
    (hnd : (entries.map Entry.driver).Nodup) (he : e ∈ entries) :
    (entries.flatMap (rowsFor laps)).filter (fun r => r.driver == e.driver) =
      rowsFor laps e := by
  induction entries with
  | nil => cases he
  | cons x xs ih =>
    rw [List.flatMap_cons, List.filter_append]
    rw [List.map_cons, List.nodup_cons] at hnd
    rcases List.mem_cons.mp he with rfl | hmem
    · rw [filter_rowsFor_self]
      have hrest : (xs.flatMap (rowsFor laps)).filter (fun r => r.driver == e.driver) = [] := by
        rw [List.filter_eq_nil_iff]
        intro r hr
        obtain ⟨e', he', hre⟩ := List.mem_flatMap.mp hr
        rw [rowsFor_driver laps e' r hre]
        have : e'.driver ≠ e.driver := by
          intro hEq
          exact hnd.1 (hEq ▸ List.mem_map_of_mem Entry.driver he')
        simp [this]
      rw [hrest, List.append_nil]
    · have hx : x.driver ≠ e.driver := by
        intro hEq
        exact hnd.1 (hEq ▸ List.mem_map_of_mem Entry.driver hmem)
      rw [filter_rowsFor_ne laps x e.driver hx, List.nil_append, ih hnd.2 hmem]

/-- C2 counterexample: driver `"A"` sets the identical best duration on two
laps with different compounds.  The claim requires a single leaderboard entry
for `"A"` carrying the first matching compound, but the left merge produces
one row per matching lap: two rows, with both compounds. -/
theorem C2_counterexample :
    (build_leaderboard (fun _ => true)
      [⟨"A", 1, some 90000, "SOFT", false, false⟩,
       ⟨"A", 2, some 90000, "MEDIUM", false, false⟩]).map Entry.driver = ["A"] ∧
    ((final_grid (fun _ => true)
      [⟨"A", 1, some 90000, "SOFT", false, false⟩,
       ⟨"A", 2, some 90000, "MEDIUM", false, false⟩]).filter
        (fun r => r.driver == "A")).length = 2 ∧
    (final_grid (fun _ => true)
      [⟨"A", 1, some 90000, "SOFT", false, false⟩,
       ⟨"A", 2, some 90000, "MEDIUM", false, false⟩]).map GridRow.compound =
      [some "SOFT", some "MEDIUM"] ∧ (2 : Nat) ≠ 1 := by
  refine ⟨by decide, by decide, by decide, by decide⟩

/-- C2 amended: the compound lookup joins the leaderboard back to the original
pre-aggregation lap table on the exact `(driver, duration)` key, but with
left-join multiplicity: the grid rows for a ranked driver are one per matching
lap row, in lap-table order, each carrying that lap's compound (so a driver
whose best duration occurs on several laps appears once per such lap); when
exactly one lap matches the driver has exactly one row with that lap's
compound, and when no lap matches a single row with a blank compound is kept. -/
theorem C2_merge_rows (p : LapRecord → Bool) (laps : List LapRecord) (e : Entry)
    (he : e ∈ build_leaderboard p laps) :
    (final_grid p laps).filter (fun r => r.driver == e.driver) = rowsFor laps e ∧
    (rowsFor laps e).map GridRow.compound =
      (if matchingLaps laps e = [] then [none]
        else (matchingLaps laps e).map (fun l => some l.compound)) ∧
    (∀ l : LapRecord, matchingLaps laps e = [l] →
      (final_grid p laps).filter (fun r => r.driver == e.driver) =
        [⟨e.pos, e.driver, e.lapTime, e.time, e.gap, some l.compound⟩]) := by
  have hmain : (final_grid p laps).filter (fun r => r.driver == e.driver) = rowsFor laps e :=
    flatMap_filter_unique laps _ e (board_drivers_nodup p laps) he
  refine ⟨hmain, ?_, ?_⟩
  · unfold rowsFor
    cases hm : matchingLaps laps e with
    | nil => simp
    | cons x xs => simp [List.map_map]
  · intro l hl
    rw [hmain]
    unfold rowsFor
    rw [hl]
    rfl

theorem C2_witness :
    (final_grid (fun _ => true)
      [⟨"A", 1, some 91500, "SOFT", false, false⟩,
       ⟨"B", 1, some 93000, "MEDIUM", false, false⟩]).filter
        (fun r => r.driver == "A") =
      rowsFor
        [⟨"A", 1, some 91500, "SOFT", false, false⟩,
         ⟨"B", 1, some 93000, "MEDIUM", false, false⟩]
        ⟨1, "A", 91500, "1:31.500", "-"⟩ :=
  (C2_merge_rows (fun _ => true)
    [⟨"A", 1, some 91500, "SOFT", false, false⟩,
     ⟨"B", 1, some 93000, "MEDIUM", false, false⟩]
    ⟨1, "A", 91500, "1:31.500", "-"⟩ (by decide)).1

theorem minByTime_eq_none (l : List (LapRecord × Nat)) :
    minByTime l = none ↔ l = [] := by
  cases l with
  | nil => simp [minByTime]
  | cons x xs =>
    simp only [minByTime]
    cases minByTime xs with
    | none => simp
    | some y => by_cases h : x.2 ≤ y.2 <;> simp [h]

theorem minByTime_spec (l : List (LapRecord × Nat)) (y : LapRecord × Nat)
    (h : minByTime l = some y) : y ∈ l ∧ ∀ x ∈ l, y.2 ≤ x.2 := by
  induction l generalizing y with
  | nil => simp [minByTime] at h
  | cons x xs ih =>
    cases hxs : minByTime xs with
    | none =>
      simp only [minByTime, hxs] at h
      obtain rfl : x = y := by simpa using h
      have hnil : xs = [] := (minByTime_eq_none xs).mp hxs
      subst hnil
      exact ⟨List.mem_singleton_self _, by simp⟩
    | some z =>
      simp only [minByTime, hxs] at h
      obtain ⟨hz, hzle⟩ := ih z hxs
      by_cases hle : x.2 ≤ z.2
      · rw [if_pos hle] at h
        obtain rfl : x = y := by simpa using h
        refine ⟨List.mem_cons_self _ _, ?_⟩
        intro u hu
        rcases List.mem_cons.mp hu with rfl | hu
        · exact Nat.le_refl _
        · exact Nat.le_trans hle (hzle u hu)
      · rw [if_neg hle] at h
        obtain rfl : z = y := by simpa using h
        refine ⟨List.mem_cons_of_mem _ hz, ?_⟩
        intro u hu
        rcases List.mem_cons.mp hu with rfl | hu
        · omega
        · exact hzle u hu

theorem timedLaps_eq_nil (laps : List LapRecord) (d : String) :
    timedLaps laps d = [] ↔ ∀ l ∈ laps, l.driver = d → l.lapTime = none := by
  unfold timedLaps
  rw [List.filterMap_eq_nil_iff]
  constructor
  · intro h l hl hld
    have := h l hl
    rw [if_pos hld] at this
    exact Option.map_eq_none'.mp this
  · intro h l hl
    by_cases hld : l.driver = d
    · rw [if_pos hld, h l hl hld]; rfl
    · rw [if_neg hld]

theorem mem_timedLaps (laps : List LapRecord) (d : String) (x : LapRecord × Nat) :
    x ∈ timedLaps laps d ↔
      x.1 ∈ laps ∧ x.1.driver = d ∧ x.1.lapTime = some x.2 := by
  unfold timedLaps
  rw [List.mem_filterMap]
  constructor
  · rintro ⟨l, hl, hfl⟩
    by_cases hld : l.driver = d
    · rw [if_pos hld] at hfl
      obtain ⟨t, ht, heq⟩ := Option.map_eq_some'.mp hfl
      cases heq
      exact ⟨hl, hld, ht⟩
    · rw [if_neg hld] at hfl
      cases hfl
  · rintro ⟨hl, hld, ht⟩
    refine ⟨x.1, hl, ?_⟩
    rw [if_pos hld, ht]
    rfl

theorem mem_board_driver (p : LapRecord → Bool) (laps : List LapRecord) (d : String)
    (hd : d ∈ (build_leaderboard p laps).map Entry.driver) :
    ∃ l ∈ filter_quick_laps p laps, l.driver = d := by
  obtain ⟨e, he, rfl⟩ := List.mem_map.mp hd
  have hpair := (mem_board p laps e he).1
  rw [sortedBest, List.mem_insertionSort] at hpair
  have hds := ((mem_bestLaps _ _ _).mp hpair).1
  exact (mem_sortedDrivers _ _).mp hds

/-- C8: `fastest_lap` returns `none` exactly when the driver has no lap with a
non-null duration; otherwise it returns one of the driver's laps carrying the
minimum duration among that driver's timed laps, with no quick-lap filtering
applied.  A driver all of whose laps have a null duration yields `none` and is
absent from the leaderboard. -/
theorem C8_fastest_lap (p : LapRecord → Bool) (laps : List LapRecord) (d : String) :
    (fastest_lap laps d = none ↔ ∀ l ∈ laps, l.driver = d → l.lapTime = none) ∧
    (∀ l : LapRecord, fastest_lap laps d = some l →
      l ∈ laps ∧ l.driver = d ∧
      ∃ t : Nat, l.lapTime = some t ∧
        ∀ l' ∈ laps, l'.driver = d → ∀ t' : Nat, l'.lapTime = some t' → t ≤ t') ∧
    ((∀ l ∈ laps, l.driver = d → l.lapTime = none) →
      fastest_lap laps d = none ∧ d ∉ (build_leaderboard p laps).map Entry.driver) := by
  have hnone : fastest_lap laps d = none ↔ ∀ l ∈ laps, l.driver = d → l.lapTime = none := by
    unfold fastest_lap
    rw [Option.map_eq_none', minByTime_eq_none, timedLaps_eq_nil]
  refine ⟨hnone, ?_, ?_⟩
  · intro l hl
    unfold fastest_lap at hl
    obtain ⟨y, hy, rfl⟩ := Option.map_eq_some'.mp hl
    obtain ⟨hymem, hymin⟩ := minByTime_spec _ y hy
    obtain ⟨h1, h2, h3⟩ := (mem_timedLaps laps d y).mp hymem
    refine ⟨h1, h2, y.2, h3, ?_⟩
    intro l' hl' hld' t' ht'
    exact hymin (l', t') ((mem_timedLaps laps d (l', t')).mpr ⟨hl', hld', ht'⟩)
  · intro hall
    refine ⟨hnone.mpr hall, ?_⟩
    intro hd
    obtain ⟨l, hl, hld⟩ := mem_board_driver p laps d hd
    have hsome := quick_lapTime_isSome p laps l hl
    have hnone' := hall l (List.mem_filter.mp hl).1 hld
    rw [hnone'] at hsome
    cases hsome

theorem C8_witness :
    fastest_lap [⟨"A", 1, none, "SOFT", false, false⟩] "A" = none ∧
    "A" ∉ (build_leaderboard (fun _ => true)
      [⟨"A", 1, none, "SOFT", false, false⟩]).map Entry.driver :=
  (C8_fastest_lap (fun _ => true) [⟨"A", 1, none, "SOFT", false, false⟩] "A").2.2
    (by decide)

/-- C9 counterexample: a lap record with a negative lap number but a valid
duration is not rejected by any aggregate: it passes the quick-lap filter, its
driver is ranked on the leaderboard, and it is returned by `fastest_lap`,
contradicting the claim that such a record is excluded from all aggregates. -/
theorem C9_counterexample :
    filter_quick_laps (fun _ => true) [⟨"A", -1, some 90000, "SOFT", false, false⟩] =
      [⟨"A", -1, some 90000, "SOFT", false, false⟩] ∧
    (build_leaderboard (fun _ => true)
      [⟨"A", -1, some 90000, "SOFT", false, false⟩]).map Entry.driver = ["A"] ∧
    fastest_lap [⟨"A", -1, some 90000, "SOFT", false, false⟩] "A" =
      some ⟨"A", -1, some 90000, "SOFT", false, false⟩ := by
  refine ⟨by decide, by decide, by decide⟩

/-- C9 amended: the pipeline performs no validation of record well-formedness;
a lap is excluded from the quick-lap filter (and hence from the leaderboard
aggregation built on it) exactly by the pit-in/pit-out flags, a missing
duration, or the quick predicate — the lap number is never consulted, so a
record with a negative lap number but a valid duration participates in every
aggregate. -/
theorem C9_no_validation (p : LapRecord → Bool) (laps : List LapRecord) (l : LapRecord) :
    l ∈ filter_quick_laps p laps ↔
      l ∈ laps ∧ l.pitIn = false ∧ l.pitOut = false ∧ l.lapTime.isSome ∧ p l = true := by
  unfold filter_quick_laps
  rw [List.mem_filter]
  simp [Bool.and_eq_true, Bool.not_eq_true']
  tauto
